import Mathlib

/-!
Verification of the coal pool coordinator (src/main.rs) against its
natural-language specification.  The embedding below translates the pure
cores of the coordinator's operations into Lean: machine integers become
Nat with explicit reduction modulo 2^64 or 2^128 where Rust release-mode
overflow (wrapping) or saturating arithmetic matters, fallible lookups
become Option, and externally computed facts (PoW validity, the digest
difficulty, database lookups) become explicit parameters of the embedded
functions.
-/

namespace CoalPool

/-- Modulus of the `u64` machine type, 2^64. -/
def U64_MOD : Nat := 18446744073709551616

/-- Largest value of the `u128` machine type, 2^128 - 1; `saturating_mul`
on `u128` clamps to this value. -/
def U128_MAX : Nat := 340282366920938463463374607431768211455

/-- Constant `MIN_DIFF` from src/main.rs:66. -/
def MIN_DIFF : Nat := 8

/-- Constant `MIN_HASHPOWER` from src/main.rs:67. -/
def MIN_HASHPOWER : Nat := 5

/-- Priority-fee escalation after a failed transaction send
(src/main.rs:829-835): `if *prio_fee < 1_000_000 { *prio_fee += 15_000 }`.
The addition is a `u64` addition, hence reduced modulo 2^64. -/
def increase_prio_fee (fee : Nat) : Nat :=
  if fee < 1000000 then (fee + 15000) % U64_MOD else fee

/-- Tiered priority-fee decrease applied after a successful mine
(src/main.rs:665-680): the three sequential `if`s pick the decrease amount
and the final update uses `saturating_sub`, which on Nat is truncated
subtraction. -/
def decrease_prio_fee (fee : Nat) : Nat :=
  let decrease_amount := 0
  let decrease_amount := if fee > 20000 then 1000 else decrease_amount
  let decrease_amount := if fee ≥ 50000 then 5000 else decrease_amount
  let decrease_amount := if fee ≥ 100000 then 10000 else decrease_amount
  fee - decrease_amount

/-- Hashpower computation for an accepted submission (src/main.rs:2022-2025):
`let mut hashpower = MIN_HASHPOWER * 2u64.pow(diff - MIN_DIFF);`
`if hashpower > 81_920 { hashpower = 81_920 }`.
Both the power and the product are `u64` operations: in release mode they
wrap, so each is reduced modulo 2^64. -/
def calc_hashpower (diff : Nat) : Nat :=
  let hashpower := MIN_HASHPOWER * (2 ^ (diff - MIN_DIFF) % U64_MOD) % U64_MOD
  if hashpower > 81920 then 81920 else hashpower

/-- C1: the claim states that starting from any fee in [0, 1_000_000] every
update keeps the fee in [0, 1_000_000].  This fails on the code: the
escalation guard is `fee < 1_000_000`, not a cap of the result, so the
in-bounds fee 990_000 escalates to 1_005_000 > 1_000_000. -/
theorem C1_fee_bound_counterexample :
    990000 ≤ 1000000 ∧ increase_prio_fee 990000 = 1005000 ∧
      ¬ increase_prio_fee 990000 ≤ 1000000 := by
  decide

/-- C1 (amended): the escalation adds 15_000 only when the fee is strictly
below 1_000_000, so from any fee at most 1_014_999 both updates (the
escalation after a failed send and the tiered decrease after a successful
mine) return a fee at most 1_014_999; the decrease never increases the fee,
and the Nat embedding of the saturating subtraction keeps the fee at or
above 0. -/
theorem C1_fee_bounds_amended (fee : Nat) (h : fee ≤ 1014999) :
    increase_prio_fee fee ≤ 1014999 ∧ decrease_prio_fee fee ≤ 1014999 ∧
      decrease_prio_fee fee ≤ fee := by
  unfold increase_prio_fee decrease_prio_fee U64_MOD
  refine ⟨?_, ?_, ?_⟩ <;> (dsimp only) <;> (repeat (first | split | omega))

/-- Witness for C1 (amended) at the concrete fee 990_000. -/
theorem C1_fee_bounds_witness :
    increase_prio_fee 990000 ≤ 1014999 ∧ decrease_prio_fee 990000 ≤ 1014999 ∧
      decrease_prio_fee 990000 ≤ 990000 :=
  C1_fee_bounds_amended 990000 (by decide)

/-- C2: the claim states that for every difficulty d ≥ 8 the recorded
hashpower equals min(5 * 2^(d-8), 81_920), including arbitrarily large d.
This fails on the code at d = 72: `2u64.pow(64)` wraps to 0 in release
mode, so the recorded hashpower is 0 while the claimed formula gives
81_920. -/
theorem C2_hashpower_counterexample :
    8 ≤ 72 ∧ calc_hashpower 72 = 0 ∧
      min (MIN_HASHPOWER * 2 ^ (72 - MIN_DIFF)) 81920 = 81920 := by
  decide

/-- C2 (amended): for every d ≥ 8 the recorded hashpower never exceeds
81_920, and for 8 ≤ d ≤ 71 (before the u64 power wraps) it equals
min(5 * 2^(d-8), 81_920). -/
theorem C2_hashpower_amended (d : Nat) (h8 : MIN_DIFF ≤ d) :
    calc_hashpower d ≤ 81920 ∧
      (d ≤ 71 → calc_hashpower d = min (MIN_HASHPOWER * 2 ^ (d - MIN_DIFF)) 81920) := by
  constructor
  · unfold calc_hashpower
    dsimp only
    split <;> omega
  · intro h71
    unfold MIN_DIFF at h8
    interval_cases d <;> decide

/-- Witness for C2 (amended) at d = 12: hashpower 80. -/
theorem C2_hashpower_witness :
    calc_hashpower 12 ≤ 81920 ∧
      (12 ≤ 71 → calc_hashpower 12 = min (MIN_HASHPOWER * 2 ^ (12 - MIN_DIFF)) 81920) :=
  C2_hashpower_amended 12 (by decide)

/-- Little-endian decoding of a byte list, as `u64::from_le_bytes(solution.n)`
at src/main.rs:2000. -/
def u64_from_le_bytes (bs : List Nat) : Nat :=
  bs.foldr (fun b acc => b + 256 * acc) 0

/-- Wallet public key, an opaque comparable identifier. -/
abbrev Pubkey := Nat

/-- A drillx solution as carried in a BestSolution message: 16 digest bytes
`d` and 8 nonce bytes `n`. -/
structure Solution where
  d : List Nat
  n : List Nat
deriving DecidableEq

/-- Value of the per-epoch submissions map (src/main.rs:107): the tuple
`(i32, u32, u64)` of miner id, difficulty and hashpower. -/
abbrev SubmissionEntry := Int × Nat × Nat

/-- The `BestHash` struct (src/main.rs:110-113). -/
structure BestHash where
  solution : Option Solution
  difficulty : Nat
deriving DecidableEq

/-- The `EpochHashes` struct (src/main.rs:105-108); the `HashMap` becomes a
function into Option. -/
structure EpochHashes where
  best_hash : BestHash
  submissions : Pubkey → Option SubmissionEntry

/-- The wrapping Rust cast `diff as i8` (src/main.rs:2047): the low 8 bits
of the u32 difficulty, read as a signed two's-complement byte. -/
def i8_cast (n : Nat) : Int :=
  if n % 256 < 128 then (n % 256 : Int) else (n % 256 : Int) - 256

/-- An `InsertSubmission` journal row with the fields the handler fills at
src/main.rs:2043-2048: miner id, the id of the challenge row found in the
database, the nonce, and the difficulty narrowed by the wrapping `as i8`
cast. -/
structure InsertSubmission where
  miner_id : Int
  challenge_id : Int
  nonce : Nat
  difficulty : Int
deriving DecidableEq

/-- An `InsertChallenge` journal row as filled at src/main.rs:2061-2065. -/
structure InsertChallenge where
  pool_id : Int
  challenge : List Nat
  rewards_earned : Option Nat
deriving DecidableEq

/-- A row the BestSolution handler writes to the journal: either the
accepted submission (when the current challenge row was found in the
database, src/main.rs:2038-2057) or a freshly inserted challenge row (when
the lookup failed, src/main.rs:2058-2070 — in that path the submission row
is dropped). -/
inductive JournalRow
  | submissionRow (row : InsertSubmission)
  | challengeRow (row : InsertChallenge)
deriving DecidableEq

/-- Facts the BestSolution handler obtains from its environment: the
submitting wallet's entry in `client_nonce_ranges`, the miner id from the
socket registry for the sender address, the external PoW validity check
`solution.is_valid(&challenge)`, the external difficulty
`solution.to_hash().difficulty()`, the id returned by the database lookup
`get_challenge_by_challenge` (none when the lookup errs), the pool id from
the config and the current challenge bytes from the proof. -/
structure HandlerCtx where
  nonce_range : Option (Nat × Nat)
  miner_id : Option Int
  valid : Bool
  diff : Nat
  challenge_id : Option Int
  pool_id : Int
  challenge : List Nat

/-- Range check `nonce_range.contains(&nonce)` (src/main.rs:2002): a Rust
half-open `Range<u64>` contains x iff start ≤ x < end. -/
def range_contains (lo hi nonce : Nat) : Bool :=
  decide (lo ≤ nonce) && decide (nonce < hi)

/-- The BestSolution branch of `client_message_handler_system`
(src/main.rs:1971-2070), embedded as a state transformer on `EpochHashes`
that also returns the journal rows written.  The source: look up the
nonce range (return on absence), check the nonce against it (return when
outside), look up the miner id (return on absence), check PoW validity
(notify and return on failure), check `diff >= MIN_DIFF` (return below),
compute the hashpower, overwrite the wallet's submissions entry, promote
the best hash when the difficulty strictly exceeds the current best, and
then persist: when `get_challenge_by_challenge` found the challenge row,
the submission row (difficulty narrowed by `as i8`) is inserted; when the
lookup failed, a challenge row is inserted instead and the submission row
is dropped. -/
def handle_best_solution (ctx : HandlerCtx) (pubkey : Pubkey) (solution : Solution)
    (st : EpochHashes) : EpochHashes × List JournalRow :=
  match ctx.nonce_range with
  | none => (st, [])
  | some (lo, hi) =>
    let nonce := u64_from_le_bytes solution.n
    if ¬ range_contains lo hi nonce then (st, [])
    else
      match ctx.miner_id with
      | none => (st, [])
      | some miner_id =>
        if ctx.valid then
          if ctx.diff ≥ MIN_DIFF then
            let hashpower := calc_hashpower ctx.diff
            let st2 : EpochHashes :=
              { best_hash :=
                  if ctx.diff > st.best_hash.difficulty then
                    { solution := some solution, difficulty := ctx.diff }
                  else st.best_hash
                submissions := fun pk =>
                  if pk = pubkey then some (miner_id, ctx.diff, hashpower)
                  else st.submissions pk }
            let journal : List JournalRow :=
              match ctx.challenge_id with
              | some cid =>
                [.submissionRow
                  { miner_id := miner_id, challenge_id := cid, nonce := nonce,
                    difficulty := i8_cast ctx.diff }]
              | none =>
                [.challengeRow
                  { pool_id := ctx.pool_id, challenge := ctx.challenge,
                    rewards_earned := none }]
            (st2, journal)
          else (st, [])
        else (st, [])

/-- A queued BestSolution message: its environment facts, the claimed wallet
pubkey and the solution. -/
abbrev SubmissionMsg := HandlerCtx × Pubkey × Solution

/-- Folding a sequence of BestSolution messages through the handler within
one epoch. -/
def run_submissions (st : EpochHashes) (msgs : List SubmissionMsg) : EpochHashes :=
  msgs.foldl (fun s msg => (handle_best_solution msg.1 msg.2.1 msg.2.2 s).1) st

theorem handle_accepted (ctx : HandlerCtx) (pubkey : Pubkey) (solution : Solution)
    (st : EpochHashes) (lo hi : Nat) (m : Int)
    (hrange : ctx.nonce_range = some (lo, hi))
    (hin : range_contains lo hi (u64_from_le_bytes solution.n) = true)
    (hm : ctx.miner_id = some m)
    (hv : ctx.valid = true)
    (hd : MIN_DIFF ≤ ctx.diff) :
    handle_best_solution ctx pubkey solution st =
      ({ best_hash :=
           if ctx.diff > st.best_hash.difficulty then
             { solution := some solution, difficulty := ctx.diff }
           else st.best_hash
         submissions := fun pk =>
           if pk = pubkey then some (m, ctx.diff, calc_hashpower ctx.diff)
           else st.submissions pk },
       match ctx.challenge_id with
       | some cid =>
         [.submissionRow
           { miner_id := m, challenge_id := cid,
             nonce := u64_from_le_bytes solution.n,
             difficulty := i8_cast ctx.diff }]
       | none =>
         [.challengeRow
           { pool_id := ctx.pool_id, challenge := ctx.challenge,
             rewards_earned := none }]) := by
  unfold handle_best_solution
  rw [hrange, hm]
  simp only [hin, hv, not_true_eq_false, if_false, if_true, ge_iff_le, hd, if_pos]

theorem handle_best_mono (ctx : HandlerCtx) (pubkey : Pubkey) (solution : Solution)
    (st : EpochHashes) :
    st.best_hash.difficulty ≤
      ((handle_best_solution ctx pubkey solution st).1).best_hash.difficulty := by
  unfold handle_best_solution
  rcases ctx.nonce_range with _ | ⟨lo, hi⟩ <;> dsimp only
  · exact le_refl _
  · split
    · exact le_refl _
    · rcases hmid : ctx.miner_id with _ | m <;> dsimp only
      · exact le_refl _
      · split
        · split
          · dsimp only
            split
            · dsimp only
              omega
            · exact le_refl _
          · exact le_refl _
        · exact le_refl _

theorem run_submissions_best_mono (st : EpochHashes) (msgs : List SubmissionMsg) :
    st.best_hash.difficulty ≤ (run_submissions st msgs).best_hash.difficulty := by
  induction msgs generalizing st with
  | nil => exact le_refl _
  | cons msg msgs ih =>
    have h1 := handle_best_mono msg.1 msg.2.1 msg.2.2 st
    have h2 := ih (handle_best_solution msg.1 msg.2.1 msg.2.2 st).1
    exact le_trans h1 h2

/-- C3: a BestSolution whose nonce (little-endian from solution.n) falls
outside the submitting wallet's assigned half-open range is dropped with
no change to the submissions map, the best hash or the journal, while a
nonce inside the range passes the range check and — when the solution is
valid, the sender is registered, the difficulty reaches the floor and the
challenge row is found in the database — is recorded in the per-epoch map
and in the journal. -/
theorem C3_nonce_range_check (ctx : HandlerCtx) (pubkey : Pubkey)
    (solution : Solution) (st : EpochHashes) (lo hi : Nat)
    (hrange : ctx.nonce_range = some (lo, hi)) :
    (range_contains lo hi (u64_from_le_bytes solution.n) = false →
       handle_best_solution ctx pubkey solution st = (st, [])) ∧
    (lo ≤ u64_from_le_bytes solution.n → u64_from_le_bytes solution.n < hi →
       range_contains lo hi (u64_from_le_bytes solution.n) = true) ∧
    (∀ m cid : Int,
       range_contains lo hi (u64_from_le_bytes solution.n) = true →
       ctx.miner_id = some m → ctx.valid = true → MIN_DIFF ≤ ctx.diff →
       ctx.challenge_id = some cid →
       ((handle_best_solution ctx pubkey solution st).1).submissions pubkey =
           some (m, ctx.diff, calc_hashpower ctx.diff) ∧
         (handle_best_solution ctx pubkey solution st).2 =
           [.submissionRow
             { miner_id := m, challenge_id := cid,
               nonce := u64_from_le_bytes solution.n,
               difficulty := i8_cast ctx.diff }]) := by
  refine ⟨?_, ?_, ?_⟩
  · intro hout
    unfold handle_best_solution
    rw [hrange]
    simp only [hout, not_false_eq_true, if_true, Bool.false_eq_true]
  · intro h1 h2
    unfold range_contains
    simp [h1, h2]
  · intro m cid hin hm hv hd hcid
    rw [handle_accepted ctx pubkey solution st lo hi m hrange hin hm hv hd]
    rw [hcid]
    exact ⟨by simp, rfl⟩

/-- Concrete fixture: handler context with assigned range [0, 4_000_000),
miner id 1, a valid solution, the given difficulty, a found challenge row
with id 1, pool id 1 and a zero challenge. -/
def test_ctx (diff : Nat) : HandlerCtx :=
  { nonce_range := some (0, 4000000), miner_id := some 1, valid := true,
    diff := diff, challenge_id := some 1, pool_id := 1,
    challenge := List.replicate 32 0 }

/-- Concrete fixture: a solution with a zero digest and the given nonce
bytes. -/
def sol_of_n (n : List Nat) : Solution :=
  { d := List.replicate 16 0, n := n }

/-- Concrete fixture: the empty epoch state. -/
def st0 : EpochHashes :=
  { best_hash := { solution := none, difficulty := 0 },
    submissions := fun _ => none }

/-- Witness for C3: with range [0, 4_000_000), the nonce 500 passes the
range check and is recorded in the map and the journal, while the nonce
4_000_001 (bytes 1, 9, 61 little-endian) is rejected with the state and
journal unchanged. -/
theorem C3_nonce_range_witness :
    handle_best_solution (test_ctx 12) 7 (sol_of_n [1, 9, 61, 0, 0, 0, 0, 0]) st0
        = (st0, []) ∧
      range_contains 0 4000000 (u64_from_le_bytes [244, 1, 0, 0, 0, 0, 0, 0])
        = true ∧
      ((handle_best_solution (test_ctx 12) 7 (sol_of_n [244, 1, 0, 0, 0, 0, 0, 0])
            st0).1).submissions 7
        = some (1, (test_ctx 12).diff, calc_hashpower (test_ctx 12).diff) ∧
      (handle_best_solution (test_ctx 12) 7 (sol_of_n [244, 1, 0, 0, 0, 0, 0, 0])
            st0).2
        = [.submissionRow
            { miner_id := 1, challenge_id := 1,
              nonce := u64_from_le_bytes [244, 1, 0, 0, 0, 0, 0, 0],
              difficulty := i8_cast (test_ctx 12).diff }] := by
  refine ⟨?_, ?_, ?_, ?_⟩
  · exact (C3_nonce_range_check (test_ctx 12) 7 (sol_of_n [1, 9, 61, 0, 0, 0, 0, 0])
      st0 0 4000000 rfl).1 (by decide)
  · exact (C3_nonce_range_check (test_ctx 12) 7 (sol_of_n [244, 1, 0, 0, 0, 0, 0, 0])
      st0 0 4000000 rfl).2.1 (by decide) (by decide)
  · exact ((C3_nonce_range_check (test_ctx 12) 7 (sol_of_n [244, 1, 0, 0, 0, 0, 0, 0])
      st0 0 4000000 rfl).2.2 1 1 (by decide) rfl rfl (by decide) rfl).1
  · exact ((C3_nonce_range_check (test_ctx 12) 7 (sol_of_n [244, 1, 0, 0, 0, 0, 0, 0])
      st0 0 4000000 rfl).2.2 1 1 (by decide) rfl rfl (by decide) rfl).2

/-- C4: within one epoch, best.difficulty is non-decreasing across any
sequence of handled submissions, and for an accepted submission the
promotion is strict: a difficulty strictly above the current best replaces
the best solution and difficulty, while a difficulty equal to or below the
current best (hence in particular an equal one) leaves the best hash
unchanged. -/
theorem C4_best_monotone_strict_promotion (st : EpochHashes)
    (msgs : List SubmissionMsg) (ctx : HandlerCtx) (pubkey : Pubkey)
    (solution : Solution) (lo hi : Nat) (m : Int)
    (hrange : ctx.nonce_range = some (lo, hi))
    (hin : range_contains lo hi (u64_from_le_bytes solution.n) = true)
    (hm : ctx.miner_id = some m)
    (hv : ctx.valid = true)
    (hd : MIN_DIFF ≤ ctx.diff) :
    st.best_hash.difficulty ≤ (run_submissions st msgs).best_hash.difficulty ∧
    (st.best_hash.difficulty < ctx.diff →
       ((handle_best_solution ctx pubkey solution st).1).best_hash =
         { solution := some solution, difficulty := ctx.diff }) ∧
    (ctx.diff ≤ st.best_hash.difficulty →
       ((handle_best_solution ctx pubkey solution st).1).best_hash =
         st.best_hash) := by
  refine ⟨run_submissions_best_mono st msgs, ?_, ?_⟩
  · intro hlt
    rw [handle_accepted ctx pubkey solution st lo hi m hrange hin hm hv hd]
    simp only [if_pos hlt]
  · intro hle
    rw [handle_accepted ctx pubkey solution st lo hi m hrange hin hm hv hd]
    have : ¬ st.best_hash.difficulty < ctx.diff := by omega
    simp only [if_neg this]

/-- Witness for C4 at a concrete accepted submission of difficulty 12 on
the empty epoch state. -/
theorem C4_best_monotone_witness :
    st0.best_hash.difficulty ≤
      (run_submissions st0 [(test_ctx 12, 7, sol_of_n [244, 1, 0, 0, 0, 0, 0, 0])]).best_hash.difficulty ∧
    (st0.best_hash.difficulty < (test_ctx 12).diff →
       ((handle_best_solution (test_ctx 12) 7 (sol_of_n [244, 1, 0, 0, 0, 0, 0, 0])
           st0).1).best_hash =
         { solution := some (sol_of_n [244, 1, 0, 0, 0, 0, 0, 0]),
           difficulty := (test_ctx 12).diff }) ∧
    ((test_ctx 12).diff ≤ st0.best_hash.difficulty →
       ((handle_best_solution (test_ctx 12) 7 (sol_of_n [244, 1, 0, 0, 0, 0, 0, 0])
           st0).1).best_hash = st0.best_hash) :=
  C4_best_monotone_strict_promotion st0
    [(test_ctx 12, 7, sol_of_n [244, 1, 0, 0, 0, 0, 0, 0])]
    (test_ctx 12) 7 (sol_of_n [244, 1, 0, 0, 0, 0, 0, 0]) 0 4000000 1
    rfl (by decide) rfl rfl (by decide)

/-- C5: the claim's concrete scenario states that after the same wallet
submits difficulties 15 then 11 within one epoch its entry is
(miner_id, 11, 160).  This fails on the code: the hashpower for difficulty
11 is MIN_HASHPOWER * 2^(11-8) = 40, so the overwritten entry is
(miner_id, 11, 40), not (miner_id, 11, 160). -/
theorem C5_overwrite_counterexample :
    (run_submissions st0
        [(test_ctx 15, 7, sol_of_n [0, 0, 0, 0, 0, 0, 0, 0]),
         (test_ctx 11, 7, sol_of_n [1, 0, 0, 0, 0, 0, 0, 0])]).submissions 7
      = some (1, 11, 40) ∧
    ¬ ((some ((1 : Int), (11 : Nat), (40 : Nat)) : Option SubmissionEntry)
        = some (1, 11, 160)) := by
  constructor
  · decide
  · decide

/-- C5 (amended): every accepted submission overwrites the submitting
wallet's entry with the new (miner_id, difficulty, hashpower) regardless of
the previous entry; concretely, after difficulties 15 then 11 the entry is
(miner_id, 11, 40) — hashpower 40, not 160 — while best.difficulty remains
at least 15. -/
theorem C5_overwrite_amended (ctx : HandlerCtx) (pubkey : Pubkey)
    (solution : Solution) (st : EpochHashes) (lo hi : Nat) (m : Int)
    (hrange : ctx.nonce_range = some (lo, hi))
    (hin : range_contains lo hi (u64_from_le_bytes solution.n) = true)
    (hm : ctx.miner_id = some m)
    (hv : ctx.valid = true)
    (hd : MIN_DIFF ≤ ctx.diff) :
    ((handle_best_solution ctx pubkey solution st).1).submissions pubkey =
      some (m, ctx.diff, calc_hashpower ctx.diff) := by
  rw [handle_accepted ctx pubkey solution st lo hi m hrange hin hm hv hd]
  simp

/-- Witness for C5 (amended): the two-step scenario at difficulties 15 then
11 leaves the wallet entry (1, 11, 40) and the best difficulty at 15. -/
theorem C5_overwrite_witness :
    ((handle_best_solution (test_ctx 11) 7 (sol_of_n [1, 0, 0, 0, 0, 0, 0, 0])
        ((handle_best_solution (test_ctx 15) 7 (sol_of_n [0, 0, 0, 0, 0, 0, 0, 0])
           st0).1)).1).submissions 7
      = some (1, (test_ctx 11).diff, calc_hashpower (test_ctx 11).diff) ∧
    calc_hashpower 11 = 40 ∧
    15 ≤ ((handle_best_solution (test_ctx 11) 7 (sol_of_n [1, 0, 0, 0, 0, 0, 0, 0])
        ((handle_best_solution (test_ctx 15) 7 (sol_of_n [0, 0, 0, 0, 0, 0, 0, 0])
           st0).1)).1).best_hash.difficulty :=
  ⟨C5_overwrite_amended (test_ctx 11) 7 (sol_of_n [1, 0, 0, 0, 0, 0, 0, 0])
      ((handle_best_solution (test_ctx 15) 7 (sol_of_n [0, 0, 0, 0, 0, 0, 0, 0])
         st0).1) 0 4000000 1 rfl (by decide) rfl rfl (by decide),
   by decide, by decide⟩

/-- Saturating `u128` multiplication: clamps at `U128_MAX`. -/
def sat_mul_u128 (a b : Nat) : Nat := min (a * b) U128_MAX

/-- The per-contributor share computation (src/main.rs:893-895):
`(*pubkey_hashpower as u128).saturating_mul(1_000_000).saturating_div(msg.total_hashpower as u128)`.
`saturating_div` on unsigned integers is plain division. -/
def hashpower_percent (hp total : Nat) : Nat :=
  sat_mul_u128 hp 1000000 / total

/-- The per-contributor earned amount (src/main.rs:899-902):
`hashpower_percent.saturating_mul(msg.rewards as u128).saturating_div(1_000_000) as u64`.
The final `as u64` cast truncates modulo 2^64. -/
def earned_rewards (hp total rewards : Nat) : Nat :=
  sat_mul_u128 (hashpower_percent hp total) rewards / 1000000 % U64_MOD

/-- Total hashpower of a submissions snapshot (src/main.rs:720-723):
`for submission in submissions.iter() { total_hashpower += submission.1.2 }`
with a `u64` accumulator, hence each addition reduced modulo 2^64. -/
def total_hashpower (subs : List (Pubkey × SubmissionEntry)) : Nat :=
  subs.foldl (fun acc s => (acc + s.2.2.2) % U64_MOD) 0

/-- Mathematical (unwrapped) sum of the hashpowers of a snapshot. -/
def sum_hp (subs : List (Pubkey × SubmissionEntry)) : Nat :=
  (subs.map (fun s => s.2.2.2)).sum

/-- Sum of the per-contributor earned amounts over a snapshot. -/
def total_earned (subs : List (Pubkey × SubmissionEntry))
    (total rewards : Nat) : Nat :=
  (subs.map (fun s => earned_rewards s.2.2.2 total rewards)).sum

theorem sum_hp_cons (s : Pubkey × SubmissionEntry)
    (l : List (Pubkey × SubmissionEntry)) :
    sum_hp (s :: l) = s.2.2.2 + sum_hp l := by
  simp [sum_hp]

theorem total_hashpower_go (l : List (Pubkey × SubmissionEntry)) (acc : Nat)
    (h : acc + sum_hp l < U64_MOD) :
    l.foldl (fun acc s => (acc + s.2.2.2) % U64_MOD) acc = acc + sum_hp l := by
  induction l generalizing acc with
  | nil => simp [sum_hp]
  | cons s l ih =>
    rw [sum_hp_cons] at h
    have h1 : acc + s.2.2.2 < U64_MOD := by omega
    have h2 : (acc + s.2.2.2) % U64_MOD = acc + s.2.2.2 := Nat.mod_eq_of_lt h1
    simp only [List.foldl_cons, h2]
    rw [ih (acc + s.2.2.2) (by omega), sum_hp_cons]
    omega

/-- When the mathematical sum fits in a u64, the wrapping accumulation in
the source computes it exactly. -/
theorem total_hashpower_eq (subs : List (Pubkey × SubmissionEntry))
    (h : sum_hp subs < U64_MOD) :
    total_hashpower subs = sum_hp subs := by
  unfold total_hashpower
  rw [total_hashpower_go subs 0 (by omega)]
  omega

theorem elem_le_sum_hp (s : Pubkey × SubmissionEntry)
    (l : List (Pubkey × SubmissionEntry)) (h : s ∈ l) :
    s.2.2.2 ≤ sum_hp l := by
  induction l with
  | nil => cases h
  | cons t l ih =>
    rw [sum_hp_cons]
    rcases List.mem_cons.mp h with h1 | h1
    · rw [h1]
      exact Nat.le_add_right _ _
    · exact le_trans (ih h1) (Nat.le_add_left _ _)

/-- Under the in-range bounds that hold in the distributor (the
contributor's hashpower is at most the total, and the total fits a u64),
the saturating share computation collapses to the pure floor formula. -/
theorem hashpower_percent_eq (hp total : Nat) (hhp : hp ≤ total)
    (htot : total < U64_MOD) :
    hashpower_percent hp total = hp * 1000000 / total := by
  unfold hashpower_percent sat_mul_u128
  have h1 : hp * 1000000 ≤ U128_MAX := by
    have h2 : hp ≤ 18446744073709551615 := by
      unfold U64_MOD at htot
      omega
    calc hp * 1000000 ≤ 18446744073709551615 * 1000000 :=
          Nat.mul_le_mul_right _ h2
      _ ≤ U128_MAX := by norm_num [U128_MAX]
  rw [min_eq_left h1]

theorem share_le (hp total : Nat) (hhp : hp ≤ total) (hpos : 0 < total) :
    hp * 1000000 / total ≤ 1000000 := by
  calc hp * 1000000 / total ≤ total * 1000000 / total :=
        Nat.div_le_div_right (Nat.mul_le_mul_right _ hhp)
    _ = 1000000 := Nat.mul_div_cancel_left _ hpos

/-- Under the distributor's in-range bounds, the saturating 128-bit earned
computation (including the final u64 cast) collapses to the pure nested
floor formula. -/
theorem earned_rewards_eq (hp total rewards : Nat) (hhp : hp ≤ total)
    (htot : total < U64_MOD) (hr : rewards < U64_MOD) (hpos : 0 < total) :
    earned_rewards hp total rewards = hp * 1000000 / total * rewards / 1000000 := by
  unfold earned_rewards
  rw [hashpower_percent_eq hp total hhp htot]
  have hs := share_le hp total hhp hpos
  have h1 : hp * 1000000 / total * rewards ≤ U128_MAX := by
    calc hp * 1000000 / total * rewards ≤ 1000000 * rewards :=
          Nat.mul_le_mul_right _ hs
      _ ≤ 1000000 * 18446744073709551615 := by
          apply Nat.mul_le_mul_left
          unfold U64_MOD at hr
          omega
      _ ≤ U128_MAX := by norm_num [U128_MAX]
  unfold sat_mul_u128
  rw [min_eq_left h1]
  have h2 : hp * 1000000 / total * rewards / 1000000 < U64_MOD := by
    have h3 : hp * 1000000 / total * rewards / 1000000 ≤ rewards := by
      calc hp * 1000000 / total * rewards / 1000000
            ≤ 1000000 * rewards / 1000000 :=
              Nat.div_le_div_right (Nat.mul_le_mul_right _ hs)
        _ = rewards := Nat.mul_div_cancel_left _ (by norm_num)
    omega
  exact Nat.mod_eq_of_lt h2

/-- C6: for every contributor of the snapshot, with the total hashpower
positive (and the u64-typed total and reward in range), the earned amount
computed by the distributor with saturating 128-bit arithmetic equals
floor(floor(hp * 1_000_000 / total) * reward / 1_000_000), and the share is
the pure floor share in ppm. -/
theorem C6_earned_formula (subs : List (Pubkey × SubmissionEntry))
    (rewards : Nat) (pk : Pubkey) (e : SubmissionEntry)
    (hmem : (pk, e) ∈ subs)
    (hsum : sum_hp subs < U64_MOD)
    (hr : rewards < U64_MOD)
    (hpos : 0 < sum_hp subs) :
    hashpower_percent e.2.2 (total_hashpower subs)
        = e.2.2 * 1000000 / sum_hp subs ∧
      earned_rewards e.2.2 (total_hashpower subs) rewards
        = e.2.2 * 1000000 / sum_hp subs * rewards / 1000000 := by
  have hT := total_hashpower_eq subs hsum
  have hhp : e.2.2 ≤ sum_hp subs := elem_le_sum_hp (pk, e) subs hmem
  rw [hT]
  exact ⟨hashpower_percent_eq _ _ hhp hsum,
    earned_rewards_eq _ _ _ hhp hsum hr hpos⟩

/-- Concrete fixture for C6: two contributors with difficulties 10 and 12,
hence hashpowers 20 and 80. -/
def subs6 : List (Pubkey × SubmissionEntry) :=
  [(1, (1, 10, 20)), (2, (2, 12, 80))]

/-- Witness for C6 at the spec's concrete scenario S2: hashpowers 20 and 80,
total 100, reward 10_000 give shares 200_000 and 800_000 ppm and earned
amounts 2_000 and 8_000. -/
theorem C6_earned_witness :
    hashpower_percent 20 (total_hashpower subs6) = 200000 ∧
      earned_rewards 20 (total_hashpower subs6) 10000 = 2000 ∧
      hashpower_percent 80 (total_hashpower subs6) = 800000 ∧
      earned_rewards 80 (total_hashpower subs6) 10000 = 8000 := by
  have h1 := C6_earned_formula subs6 10000 1 (1, 10, 20) (by decide) (by decide)
    (by decide) (by decide)
  have h2 := C6_earned_formula subs6 10000 2 (2, 12, 80) (by decide) (by decide)
    (by decide) (by decide)
  exact ⟨h1.1.trans (by decide), h1.2.trans (by decide),
    h2.1.trans (by decide), h2.2.trans (by decide)⟩

theorem sum_shares_le (T : Nat)
    (l : List (Pubkey × SubmissionEntry)) :
    T * (l.map (fun s => s.2.2.2 * 1000000 / T)).sum ≤ 1000000 * sum_hp l := by
  induction l with
  | nil => simp [sum_hp]
  | cons s l ih =>
    rw [sum_hp_cons]
    simp only [List.map_cons, List.sum_cons]
    have h1 : T * (s.2.2.2 * 1000000 / T) ≤ s.2.2.2 * 1000000 := by
      rw [mul_comm]
      exact Nat.div_mul_le_self _ _
    calc T * (s.2.2.2 * 1000000 / T + (l.map (fun s => s.2.2.2 * 1000000 / T)).sum)
          = T * (s.2.2.2 * 1000000 / T)
              + T * (l.map (fun s => s.2.2.2 * 1000000 / T)).sum := by ring
      _ ≤ s.2.2.2 * 1000000 + 1000000 * sum_hp l := Nat.add_le_add h1 ih
      _ = 1000000 * (s.2.2.2 + sum_hp l) := by ring

theorem sum_shares_ge (T : Nat) (hpos : 0 < T)
    (l : List (Pubkey × SubmissionEntry)) :
    1000000 * sum_hp l
      ≤ T * ((l.map (fun s => s.2.2.2 * 1000000 / T)).sum + l.length) := by
  induction l with
  | nil => simp [sum_hp]
  | cons s l ih =>
    rw [sum_hp_cons]
    simp only [List.map_cons, List.sum_cons, List.length_cons]
    have h0 := Nat.div_add_mod (s.2.2.2 * 1000000) T
    have h1 := Nat.mod_lt (s.2.2.2 * 1000000) hpos
    have h2 : s.2.2.2 * 1000000 ≤ T * (s.2.2.2 * 1000000 / T) + T := by omega
    calc 1000000 * (s.2.2.2 + sum_hp l)
          = s.2.2.2 * 1000000 + 1000000 * sum_hp l := by ring
      _ ≤ (T * (s.2.2.2 * 1000000 / T) + T)
            + T * ((l.map (fun s => s.2.2.2 * 1000000 / T)).sum + l.length) :=
          Nat.add_le_add h2 ih
      _ = T * ((s.2.2.2 * 1000000 / T
            + (l.map (fun s => s.2.2.2 * 1000000 / T)).sum) + (l.length + 1)) := by
          ring

theorem sum_earned_le (T R : Nat)
    (l : List (Pubkey × SubmissionEntry)) :
    1000000 * (l.map (fun s => s.2.2.2 * 1000000 / T * R / 1000000)).sum
      ≤ R * (l.map (fun s => s.2.2.2 * 1000000 / T)).sum := by
  induction l with
  | nil => simp
  | cons s l ih =>
    simp only [List.map_cons, List.sum_cons]
    have h1 : 1000000 * (s.2.2.2 * 1000000 / T * R / 1000000)
        ≤ s.2.2.2 * 1000000 / T * R := by
      rw [mul_comm]
      exact Nat.div_mul_le_self _ _
    calc 1000000 * (s.2.2.2 * 1000000 / T * R / 1000000
            + (l.map (fun s => s.2.2.2 * 1000000 / T * R / 1000000)).sum)
          = 1000000 * (s.2.2.2 * 1000000 / T * R / 1000000)
              + 1000000 * (l.map (fun s => s.2.2.2 * 1000000 / T * R / 1000000)).sum := by
            ring
      _ ≤ s.2.2.2 * 1000000 / T * R
            + R * (l.map (fun s => s.2.2.2 * 1000000 / T)).sum :=
          Nat.add_le_add h1 ih
      _ = R * (s.2.2.2 * 1000000 / T + (l.map (fun s => s.2.2.2 * 1000000 / T)).sum) := by
          ring

theorem sum_earned_ge (T R : Nat)
    (l : List (Pubkey × SubmissionEntry)) :
    R * (l.map (fun s => s.2.2.2 * 1000000 / T)).sum
      ≤ 1000000 * (l.map (fun s => s.2.2.2 * 1000000 / T * R / 1000000)).sum
          + l.length * 1000000 := by
  induction l with
  | nil => simp
  | cons s l ih =>
    simp only [List.map_cons, List.sum_cons, List.length_cons]
    have h0 := Nat.div_add_mod (s.2.2.2 * 1000000 / T * R) 1000000
    have h1 : s.2.2.2 * 1000000 / T * R % 1000000 < 1000000 :=
      Nat.mod_lt _ (by norm_num)
    have h2 : s.2.2.2 * 1000000 / T * R
        ≤ 1000000 * (s.2.2.2 * 1000000 / T * R / 1000000) + 1000000 := by omega
    calc R * (s.2.2.2 * 1000000 / T + (l.map (fun s => s.2.2.2 * 1000000 / T)).sum)
          = s.2.2.2 * 1000000 / T * R
              + R * (l.map (fun s => s.2.2.2 * 1000000 / T)).sum := by ring
      _ ≤ (1000000 * (s.2.2.2 * 1000000 / T * R / 1000000) + 1000000)
            + (1000000 * (l.map (fun s => s.2.2.2 * 1000000 / T * R / 1000000)).sum
                + l.length * 1000000) :=
          Nat.add_le_add h2 ih
      _ = 1000000 * (s.2.2.2 * 1000000 / T * R / 1000000
            + (l.map (fun s => s.2.2.2 * 1000000 / T * R / 1000000)).sum)
            + (l.length + 1) * 1000000 := by ring

theorem total_earned_eq_formula (subs : List (Pubkey × SubmissionEntry))
    (rewards : Nat) (hsum : sum_hp subs < U64_MOD) (hr : rewards < U64_MOD)
    (hpos : 0 < sum_hp subs) :
    total_earned subs (total_hashpower subs) rewards
      = (subs.map (fun s =>
          s.2.2.2 * 1000000 / sum_hp subs * rewards / 1000000)).sum := by
  unfold total_earned
  rw [total_hashpower_eq subs hsum]
  congr 1
  apply List.map_congr_left
  intro s hs
  exact earned_rewards_eq s.2.2.2 (sum_hp subs) rewards
    (elem_le_sum_hp s subs hs) hsum hr hpos

/-- Concrete fixture for C7: two contributors with hashpowers 1 and 2. -/
def subs7 : List (Pubkey × SubmissionEntry) :=
  [(1, (1, 8, 1)), (2, (2, 8, 2))]

/-- C7: the claim states that the shortfall between the reward and the sum
of earned amounts is at most the contributor count.  This fails on the
code: with hashpowers 1 and 2 (total 3) and reward 10_000_000, the earned
amounts are 3_333_330 and 6_666_660, so the shortfall is 10, which exceeds
the 2 contributors — flooring losses scale with the reward. -/
theorem C7_conservation_counterexample :
    total_earned subs7 (total_hashpower subs7) 10000000 = 9999990 ∧
      ¬ (10000000 - total_earned subs7 (total_hashpower subs7) 10000000
          ≤ subs7.length) := by
  constructor
  · decide
  · decide

/-- C7 (amended): the sum of the per-contributor earned amounts is at most
the reward, and the shortfall obeys the scaled bound
1_000_000 * (reward - sum) ≤ n * (reward + 1_000_000) — a per-contributor
loss of at most one ppm-rounding unit of the reward plus one token, rather
than one token alone. -/
theorem C7_conservation_amended (subs : List (Pubkey × SubmissionEntry))
    (rewards : Nat) (hsum : sum_hp subs < U64_MOD) (hr : rewards < U64_MOD)
    (hpos : 0 < sum_hp subs) :
    total_earned subs (total_hashpower subs) rewards ≤ rewards ∧
      1000000 * rewards
        ≤ 1000000 * total_earned subs (total_hashpower subs) rewards
            + subs.length * (rewards + 1000000) := by
  rw [total_earned_eq_formula subs rewards hsum hr hpos]
  have hS_le : (subs.map (fun s => s.2.2.2 * 1000000 / sum_hp subs)).sum
      ≤ 1000000 := by
    have h1 := sum_shares_le (sum_hp subs) subs
    have h2 : sum_hp subs * (subs.map (fun s => s.2.2.2 * 1000000 / sum_hp subs)).sum
        ≤ sum_hp subs * 1000000 := by
      calc sum_hp subs * (subs.map (fun s => s.2.2.2 * 1000000 / sum_hp subs)).sum
            ≤ 1000000 * sum_hp subs := h1
        _ = sum_hp subs * 1000000 := by ring
    exact Nat.le_of_mul_le_mul_left h2 hpos
  constructor
  · have h3 := sum_earned_le (sum_hp subs) rewards subs
    have h4 : 1000000 * (subs.map (fun s =>
        s.2.2.2 * 1000000 / sum_hp subs * rewards / 1000000)).sum
        ≤ 1000000 * rewards := by
      calc 1000000 * (subs.map (fun s =>
              s.2.2.2 * 1000000 / sum_hp subs * rewards / 1000000)).sum
            ≤ rewards * (subs.map (fun s => s.2.2.2 * 1000000 / sum_hp subs)).sum :=
            h3
        _ ≤ rewards * 1000000 := Nat.mul_le_mul_left _ hS_le
        _ = 1000000 * rewards := by ring
    exact Nat.le_of_mul_le_mul_left h4 (by norm_num)
  · have h5 : 1000000 ≤ (subs.map (fun s => s.2.2.2 * 1000000 / sum_hp subs)).sum
        + subs.length := by
      have h6 := sum_shares_ge (sum_hp subs) hpos subs
      have h7 : sum_hp subs * 1000000 ≤ sum_hp subs
          * ((subs.map (fun s => s.2.2.2 * 1000000 / sum_hp subs)).sum
              + subs.length) := by
        calc sum_hp subs * 1000000 = 1000000 * sum_hp subs := by ring
          _ ≤ _ := h6
      exact Nat.le_of_mul_le_mul_left h7 hpos
    have h8 := sum_earned_ge (sum_hp subs) rewards subs
    calc 1000000 * rewards = rewards * 1000000 := by ring
      _ ≤ rewards * ((subs.map (fun s => s.2.2.2 * 1000000 / sum_hp subs)).sum
            + subs.length) := Nat.mul_le_mul_left _ h5
      _ = rewards * (subs.map (fun s => s.2.2.2 * 1000000 / sum_hp subs)).sum
            + subs.length * rewards := by ring
      _ ≤ (1000000 * (subs.map (fun s =>
              s.2.2.2 * 1000000 / sum_hp subs * rewards / 1000000)).sum
            + subs.length * 1000000) + subs.length * rewards :=
          Nat.add_le_add h8 (le_refl _)
      _ = 1000000 * (subs.map (fun s =>
              s.2.2.2 * 1000000 / sum_hp subs * rewards / 1000000)).sum
            + subs.length * (rewards + 1000000) := by ring

/-- Witness for C7 (amended) on the two-contributor fixture with reward
10_000. -/
theorem C7_conservation_witness :
    total_earned subs6 (total_hashpower subs6) 10000 ≤ 10000 ∧
      1000000 * 10000
        ≤ 1000000 * total_earned subs6 (total_hashpower subs6) 10000
            + subs6.length * (10000 + 1000000) :=
  C7_conservation_amended subs6 10000 (by decide) (by decide) (by decide)

/-- Outcome of the WebSocket upgrade handler `ws_handler`, tagged by the
rejection reason and HTTP status carried in the source: `staleTimestamp`,
`notSignedUp`, `notEnabled`, `badSignatureFormat`, `sigVerifyFailed` and
`invalidPubkey` are 401 responses, `alreadyConnected` is 429,
`internalError` is 500, and `upgrade` proceeds to the socket upgrade. -/
inductive WsResult
  | staleTimestamp
  | alreadyConnected
  | notSignedUp
  | internalError
  | notEnabled
  | badSignatureFormat
  | sigVerifyFailed
  | invalidPubkey
  | upgrade
deriving DecidableEq

/-- Result of the miner lookup `get_miner_by_pubkey_str`
(src/main.rs:1649-1678). -/
inductive DbMinerResult
  | found (enabled : Bool)
  | queryFailed
  | interactionFailed
  | connectionFailed
  | otherError
deriving DecidableEq

/-- The decision chain of `ws_handler` (src/main.rs:1606-1708).  `now` and
the query timestamp are u64 and the staleness guard computes
`now - query_params.timestamp` with u64 release-mode wraparound, rejecting
when the wrapped difference is at least 30; then the pubkey parse, the
one-session-per-wallet check, the miner lookup, the enabled flag, the
signature parse and the signature verification follow in source order.
Externally decided facts (pubkey parse, registry scan, database lookup,
signature parse and verification) are parameters. -/
def ws_handler (now timestamp : Nat) (pubkey_ok already_connected : Bool)
    (sig_format_ok sig_verified : Bool) (db : DbMinerResult) : WsResult :=
  if (now + U64_MOD - timestamp) % U64_MOD ≥ 30 then .staleTimestamp
  else if pubkey_ok then
    if already_connected then .alreadyConnected
    else
      match db with
      | .queryFailed => .notSignedUp
      | .interactionFailed => .notSignedUp
      | .connectionFailed => .internalError
      | .otherError => .internalError
      | .found enabled =>
        if ¬ enabled then .notEnabled
        else if sig_format_ok then
          if sig_verified then .upgrade else .sigVerifyFailed
        else .badSignatureFormat
  else .invalidPubkey

theorem ws_handler_stale_iff (now timestamp : Nat)
    (pubkey_ok already_connected sig_format_ok sig_verified : Bool)
    (db : DbMinerResult) :
    ws_handler now timestamp pubkey_ok already_connected sig_format_ok
        sig_verified db = .staleTimestamp
      ↔ 30 ≤ (now + U64_MOD - timestamp) % U64_MOD := by
  unfold ws_handler
  by_cases h : 30 ≤ (now + U64_MOD - timestamp) % U64_MOD
  · simp [h]
  · rw [if_neg (by omega)]
    simp only [h, iff_false]
    rcases db with en | _ | _ | _ | _ <;>
      cases pubkey_ok <;> cases already_connected <;>
      cases sig_format_ok <;> cases sig_verified <;>
      try cases en
    all_goals simp

/-- C8: the claim states staleness rejection happens iff now - timestamp
exceeds 30 seconds.  This fails on the code: the guard at src/main.rs:1627
is `(now - query_params.timestamp) >= 30`, so a request aged exactly 30
seconds is also rejected with 401. -/
theorem C8_staleness_counterexample :
    (1030 : Nat) - 1000 = 30 ∧ ¬ ((1030 : Nat) - 1000 > 30) ∧
      ws_handler 1030 1000 true false true true (.found true)
        = .staleTimestamp := by
  refine ⟨by decide, by decide, ?_⟩
  decide

/-- C8 (amended): for a non-future timestamp, the upgrade request is
rejected for staleness with 401 iff now - timestamp is at least 30 (not
strictly greater than 30); in particular an age of 31 is rejected, and an
age of 5 with a parsed pubkey, no duplicate session, an enabled miner and
a valid signature proceeds to the upgrade. -/
theorem C8_staleness_amended (now timestamp : Nat)
    (pubkey_ok already_connected sig_format_ok sig_verified : Bool)
    (db : DbMinerResult)
    (hts : timestamp ≤ now) (hnow : now < U64_MOD) :
    (ws_handler now timestamp pubkey_ok already_connected sig_format_ok
          sig_verified db = .staleTimestamp
        ↔ 30 ≤ now - timestamp) ∧
      (now - timestamp = 31 →
        ws_handler now timestamp pubkey_ok already_connected sig_format_ok
          sig_verified db = .staleTimestamp) ∧
      (now - timestamp = 5 →
        ws_handler now timestamp true false true true (.found true)
          = .upgrade) := by
  have hM : U64_MOD = 18446744073709551616 := rfl
  have hwrap : (now + U64_MOD - timestamp) % U64_MOD = now - timestamp := by
    have h1 : now + U64_MOD - timestamp = (now - timestamp) + U64_MOD := by
      omega
    rw [h1, Nat.add_mod_right]
    exact Nat.mod_eq_of_lt (by omega)
  refine ⟨?_, ?_, ?_⟩
  · rw [ws_handler_stale_iff, hwrap]
  · intro h31
    rw [ws_handler_stale_iff, hwrap]
    omega
  · intro h5
    unfold ws_handler
    rw [hwrap, if_neg (by omega)]
    simp

/-- Witness for C8 (amended): age 31 is rejected as stale, age 5 with a
valid signature upgrades. -/
theorem C8_staleness_witness :
    ws_handler 1031 1000 true false true true DbMinerResult.queryFailed
        = .staleTimestamp ∧
      ws_handler 1005 1000 true false true true (.found true) = .upgrade :=
  ⟨(C8_staleness_amended 1031 1000 true false true true .queryFailed
      (by decide) (by decide)).2.1 (by decide),
   (C8_staleness_amended 1005 1000 true false true true (.found true)
      (by decide) (by decide)).2.2 (by decide)⟩

/-- C10: with u64 wraparound in the staleness guard, every request whose
timestamp lies strictly in the future (by at most 2^64 - 30) has a wrapped
difference of at least 30 and is rejected with 401 — a future-dated
timestamp is never accepted. -/
theorem C10_future_timestamp_rejected (now timestamp : Nat)
    (pubkey_ok already_connected sig_format_ok sig_verified : Bool)
    (db : DbMinerResult)
    (hlt : now < timestamp) (htsU : timestamp < U64_MOD)
    (hbound : timestamp - now ≤ U64_MOD - 30) :
    30 ≤ (now + U64_MOD - timestamp) % U64_MOD ∧
      ws_handler now timestamp pubkey_ok already_connected sig_format_ok
        sig_verified db = .staleTimestamp := by
  have hM : U64_MOD = 18446744073709551616 := rfl
  have hwrap : (now + U64_MOD - timestamp) % U64_MOD
      = U64_MOD - (timestamp - now) := by
    have h1 : now + U64_MOD - timestamp = U64_MOD - (timestamp - now) := by
      omega
    rw [h1]
    exact Nat.mod_eq_of_lt (by omega)
  constructor
  · rw [hwrap]
    omega
  · exact (ws_handler_stale_iff now timestamp pubkey_ok already_connected
      sig_format_ok sig_verified db).mpr (by rw [hwrap]; omega)

/-- Witness for C10 at now = 100 with the future timestamp 200. -/
theorem C10_future_timestamp_witness :
    30 ≤ (100 + U64_MOD - 200) % U64_MOD ∧
      ws_handler 100 200 true false true true (.found true)
        = .staleTimestamp :=
  C10_future_timestamp_rejected 100 200 true false true true (.found true)
    (by decide) (by decide) (by decide)

/-- Internal client messages produced by `process_message`
(src/main.rs:97-103); the BestSolution carries the extracted digest, nonce
and pubkey bytes. -/
inductive ClientMessageM
  | ready
  | mining
  | pong
  | bestSolution (digest : List Nat) (nonce : List Nat) (pubkey : List Nat)
deriving DecidableEq

/-- Inbound WebSocket frames as seen by `process_message`. -/
inductive WsFrame
  | text
  | binary (d : List Nat)
  | close
  | pong
  | ping
deriving DecidableEq

/-- Outcome of one `process_message` call: normal control flow (whether it
breaks the receive loop, and the message forwarded to the handler channel,
if any), or an out-of-bounds index — the case where the Rust code
panics. -/
inductive ProcessOutcome
  | ok (is_break : Bool) (forwarded : Option ClientMessageM)
  | indexOutOfBounds
deriving DecidableEq

/-- Total embedding of `process_message` (src/main.rs:1762-1857).  The
source indexes the binary payload without length checks — `d[0]` for the
opcode, bytes 1..57 for an opcode-2 frame and the tail slice `d[57..]` —
and every such access out of bounds panics, modeled here as
`indexOutOfBounds`.  Whether the trailing signature bytes parse and verify
is external and passed in as parameters. -/
def process_message (msg : WsFrame) (sig_format_ok sig_verified : Bool) :
    ProcessOutcome :=
  match msg with
  | .text => .ok false none
  | .binary d =>
    match d.head? with
    | none => .indexOutOfBounds
    | some message_type =>
      if message_type = 0 then .ok false (some .ready)
      else if message_type = 1 then .ok false (some .mining)
      else if message_type = 2 then
        if 57 ≤ d.length then
          let solution_bytes := (d.drop 1).take 16
          let nonce := (d.drop 17).take 8
          let pubkey := (d.drop 25).take 32
          if sig_format_ok then
            if sig_verified then
              .ok false (some (.bestSolution solution_bytes nonce pubkey))
            else .ok false none
          else .ok false none
        else .indexOutOfBounds
      else .ok false none
  | .close => .ok true none
  | .pong => .ok false (some .pong)
  | .ping => .ok false none

/-- C9: the claim states that frame processing never panics and that the
out-of-bounds branch of the total embedding is unreachable.  The code
contradicts this (and the spec's own never-crash-the-session error policy):
an empty binary frame reaches `d[0]` out of bounds, and an opcode-2 frame
shorter than 57 bytes reaches the payload reads out of bounds, while a
57-byte opcode-2 frame is processed normally. -/
theorem C9_oob_reachable :
    process_message (.binary []) true true = .indexOutOfBounds ∧
      process_message (.binary [2, 0, 0, 0, 0, 0, 0, 0, 0, 0]) true true
        = .indexOutOfBounds ∧
      process_message (.binary (2 :: List.replicate 56 0)) true true
        = .ok false (some (.bestSolution (List.replicate 16 0)
            (List.replicate 8 0) (List.replicate 32 0))) := by
  refine ⟨rfl, rfl, ?_⟩
  decide

end CoalPool
